import Mathlib

/-!
Verification of the batch media-transcoding pipeline (`src/index.js`).

The development shallow-embeds the JavaScript source into Lean:

* JavaScript strings are modelled as `String` / `List Char`, with the string
  primitives the source uses (`String.prototype.split`, `String.prototype.replace`
  with a string pattern, `parseInt`, `String.prototype.toLowerCase`) re-implemented
  as structurally recursive Lean functions so that every definition evaluates by
  kernel reduction.
* Node's `path` module (`extname`, `basename`, `dirname`, `join`) is modelled for
  POSIX paths without trailing slashes or `.`/`..` segments, which is the shape of
  every path the program constructs.
* Effectful code (spawned processes, the filesystem, network uploads) is embedded
  by making each external outcome an explicit argument (exit codes, captured
  stderr text, existence flags, per-sub-step success flags) and modelling the
  promise chains as total functions on those arguments; a rejected promise is an
  `Except.error`, a resolved one `Except.ok`.
* Accumulation into the global `filesErrored` array is modelled as explicit list
  passing.
-/

/-! ## JavaScript string primitives -/

/-- The characters matched by the JavaScript regular-expression class `\s`
(ECMAScript WhiteSpace and LineTerminator code points). -/
def jsWhitespaceChar (c : Char) : Bool :=
  c = ' ' || c = '\t' || c = '\n' || c = '\x0b' || c = '\x0c' || c = '\r' ||
  c.toNat = 0xa0 || c.toNat = 0x1680 ||
  (0x2000 ≤ c.toNat && c.toNat ≤ 0x200a) ||
  c.toNat = 0x2028 || c.toNat = 0x2029 || c.toNat = 0x202f ||
  c.toNat = 0x205f || c.toNat = 0x3000 || c.toNat = 0xfeff

/-- Substring test, mirroring `String.prototype.indexOf(pat) !== -1`. -/
def hasSubstr (pat : List Char) : List Char → Bool
  | [] => pat.isPrefixOf ([] : List Char)
  | c :: cs => pat.isPrefixOf (c :: cs) || hasSubstr pat cs

/-- Fuel-driven worker for `splitOnL`; the fuel is the length of the string, so
it never runs out.  Structural recursion on the fuel keeps the definition
kernel-reducible. -/
def splitOnFuel (sep : List Char) : Nat → List Char → List (List Char)
  | 0, s => [s]
  | fuel+1, s =>
    if sep ≠ [] && sep.isPrefixOf s then
      [] :: splitOnFuel sep fuel (s.drop sep.length)
    else match s with
      | [] => [[]]
      | c :: cs =>
        match splitOnFuel sep fuel cs with
        | [] => [[c]]
        | r :: rs => (c :: r) :: rs

/-- `String.prototype.split(sep)` for a non-empty string separator: scan left to
right, cutting at each occurrence of `sep`. -/
def splitOnL (sep s : List Char) : List (List Char) := splitOnFuel sep s.length s

/-- `String.prototype.replace(pat, rep)` with a string pattern: replace the first
occurrence of `pat` only. -/
def listReplaceFirst (pat rep : List Char) : List Char → List Char
  | [] => if pat.isPrefixOf ([] : List Char) then rep else []
  | c :: cs =>
    if pat.isPrefixOf (c :: cs) then rep ++ (c :: cs).drop pat.length
    else c :: listReplaceFirst pat rep cs

/-- Decimal digit run accumulated into a natural number. -/
def digitsToNat (ds : List Char) : Nat :=
  ds.foldl (fun a c => a * 10 + (c.toNat - 48)) 0

/-- The digit-parsing core of `parseInt`: `none` when no leading digits. -/
def parseDigits (s : List Char) : Option Int :=
  let ds := s.takeWhile Char.isDigit
  if ds.isEmpty then none else some (digitsToNat ds : Int)

/-- JavaScript `parseInt` restricted to base-10 inputs (the only form the
program feeds it): skip leading whitespace, optional sign, then leading digits;
`NaN` (modelled as `none`) when no digits follow. -/
def jsParseInt (s : List Char) : Option Int :=
  let t := s.dropWhile jsWhitespaceChar
  match t with
  | '-' :: rest => (parseDigits rest).map (fun n => -n)
  | '+' :: rest => parseDigits rest
  | _ => parseDigits t

/-! ## Node `path` module (POSIX, no trailing slashes, no dot segments) -/

/-- `path.basename(p)`: the final `/`-separated component. -/
def basenameL (p : List Char) : List Char :=
  (splitOnL ['/'] p).getLastD p

/-- `path.extname` applied to a basename: the suffix from the last `.`, empty
when there is no dot or the only dot is the leading character. -/
def extnameOfBase (b : List Char) : List Char :=
  let parts := splitOnL ['.'] b
  if 2 ≤ parts.length then
    if parts.length = 2 && (parts.headD []).isEmpty then []
    else '.' :: parts.getLastD []
  else []

/-- `path.extname(p)`. -/
def extnameL (p : List Char) : List Char := extnameOfBase (basenameL p)

/-- `path.basename(p, ext)`: the basename with the suffix `ext` stripped when it
is a proper suffix. -/
def basenameExtL (p ext : List Char) : List Char :=
  let b := basenameL p
  if ext ≠ [] && ext.isSuffixOf b && ext.length < b.length then
    b.take (b.length - ext.length)
  else b

/-- `path.dirname(p)`. -/
def dirnameL (p : List Char) : List Char :=
  let parts := splitOnL ['/'] p
  if parts.length ≤ 1 then ['.']
  else
    let d := List.intercalate ['/'] parts.dropLast
    if d.isEmpty then ['/'] else d

/-- `path.join(a, b)` for the simple two-argument joins the program performs. -/
def pjoinL (a b : List Char) : List Char :=
  if a.isEmpty then b else if b.isEmpty then a else a ++ '/' :: b

/-! String-level wrappers used in the statements. -/

def jsReplaceFirst (s pat rep : String) : String :=
  String.mk (listReplaceFirst pat.toList rep.toList s.toList)

def jsExtname (p : String) : String := String.mk (extnameL p.toList)

def jsBasename (p : String) : String := String.mk (basenameL p.toList)

def jsBasenameExt (p ext : String) : String :=
  String.mk (basenameExtL p.toList ext.toList)

def jsDirname (p : String) : String := String.mk (dirnameL p.toList)

def pjoin (a b : String) : String := String.mk (pjoinL a.toList b.toList)

def jsSplit (s sep : String) : List String :=
  (splitOnL sep.toList s.toList).map String.mk

def jsToLower (s : String) : String := String.mk (s.toList.map Char.toLower)

/-! ## `sanitizePath` (src/index.js lines 52-54)

`filepath.replace(/\s/g, '\\ ').replace(/&/g, '\\&')`: a first global pass
replaces every whitespace character with backslash-space, a second replaces
every ampersand with backslash-ampersand. -/

/-- One character under the first (whitespace) replacement pass. -/
def wsEscape (c : Char) : List Char :=
  if jsWhitespaceChar c then ['\\', ' '] else [c]

/-- One character under the second (ampersand) replacement pass. -/
def ampEscape (c : Char) : List Char :=
  if c = '&' then ['\\', '&'] else [c]

/-- `sanitizePath` on character lists: the two global regex replacements in
source order. -/
def sanitizeList (s : List Char) : List Char :=
  (s.flatMap wsEscape).flatMap ampEscape

/-- `sanitizePath` from src/index.js. -/
def sanitizePath (p : String) : String := String.mk (sanitizeList p.toList)

/-- Both passes fused into a single per-character map (proved equal to
`sanitizeList` below). -/
def escapeChar (c : Char) : List Char :=
  if jsWhitespaceChar c then ['\\', ' ']
  else if c = '&' then ['\\', '&']
  else [c]

/-- A character the sanitizer is supposed to escape. -/
def escapeTarget (c : Char) : Bool := jsWhitespaceChar c || c = '&'

/-- `escapedFrom prev s` holds when every whitespace/ampersand character in `s`
is immediately preceded by a backslash (`prev` is the character preceding
`s`). -/
def escapedFrom (prev : Char) : List Char → Bool
  | [] => true
  | c :: cs => (!escapeTarget c || prev = '\\') && escapedFrom c cs

/-! ## Durations (src/index.js lines 132-167)

A JavaScript number that may be `NaN` is `Option Int` (`none` = `NaN`); a
duration value resolved by `getDuration` is `Option (List (Option Int))`
(`none` = `undefined`, the unparseable sentinel). -/

/-- JavaScript array indexing `d[i]`: `undefined`/`NaN` when out of range,
modelled as `none`. -/
def jsGet (l : List (Option Int)) (i : Nat) : Option Int := (l.get? i).getD none

/-- `Math.abs(a - b) <= tol` under JavaScript numeric semantics: any comparison
with `NaN` is false. -/
def nanAbsLe (a b : Option Int) (tol : Int) : Bool :=
  match a, b with
  | some x, some y => decide (((x - y).natAbs : Int) ≤ tol)
  | _, _ => false

/-- `isDurationEqual` from src/index.js: `false` unless both inputs are arrays;
otherwise component-wise absolute differences against the hour/minute/second
tolerances (indices 0, 1, 2). -/
def isDurationEqual (dur1 dur2 : Option (List (Option Int)))
    (tolSec tolMin tolHour : Int) : Bool :=
  match dur1, dur2 with
  | some d1, some d2 =>
    nanAbsLe (jsGet d1 0) (jsGet d2 0) tolHour &&
    nanAbsLe (jsGet d1 1) (jsGet d2 1) tolMin &&
    nanAbsLe (jsGet d1 2) (jsGet d2 2) tolSec
  | _, _ => false

/-- The pattern searched for by `getDuration`'s while loop. -/
def durationPat : List Char := "Duration:".toList

/-- `H:MM:SS.ff` → `[H, MM, SS]`: `timecode.split('.')[0].split(':').map(parseInt)`
from src/index.js line 154. -/
def parseTimecode (tc : List Char) : List (Option Int) :=
  (splitOnL [':'] ((splitOnL ['.'] tc).headD [])).map jsParseInt

/-- Duration extraction from a single stderr line:
`lines[0].split(', ')[0].split(': ')[1]` and the subsequent timecode parse
(src/index.js lines 152-154); `none` when the line has no `': '` separator
(the `typeof timecode === 'string'` guard fails). -/
def lineDuration (l : List Char) : Option (List (Option Int)) :=
  match splitOnL (": ".toList) ((splitOnL (", ".toList) l).headD []) with
  | _ :: tc :: _ => some (parseTimecode tc)
  | _ => none

/-- The close-handler parse of `getDuration` after `stderr.split('\n')`
(src/index.js lines 147-154): drop lines until one contains `Duration:`; the
timecode is taken from that line only when at least two lines remain. -/
def getDurationLines (lines : List (List Char)) : Option (List (Option Int)) :=
  match lines.dropWhile (fun l => !hasSubstr durationPat l) with
  | l :: _ :: _ => lineDuration l
  | _ => none

/-- `getDuration`'s resolved value as a function of the captured stderr text. -/
def getDurationParse (stderrText : String) : Option (List (Option Int)) :=
  getDurationLines (splitOnL ['\n'] stderrText.toList)

/-- The full close handler of `getDuration` (src/index.js lines 142-156): a
non-zero ffprobe exit code rejects the promise (the later `resolve` call on an
already-rejected promise is a no-op); exit code 0 resolves with the parse. -/
def getDurationClose (code : Int) (stderrText : String) :
    Except String (Option (List (Option Int))) :=
  if code ≠ 0 then Except.error "FFProbe failed"
  else Except.ok (getDurationParse stderrText)

/-! ## `processFile` (src/index.js lines 67-130) -/

/-- An entry of the `filesErrored` list: `{ err, infile, outfile }`.  The `err`
field records the message of the underlying `Error`. -/
structure ErrorRecord where
  err : String
  infile : String
  outfile : String
deriving DecidableEq, Repr

/-- The ffmpeg close handler (src/index.js lines 113-123): non-zero exit
rejects with the fixed `Error('FFMpeg failed')`; the captured stderr is only
passed to `debug`, never attached to the error. -/
def ffmpegClose (code : Int) (stdoutText stderrText : String) : Except String Unit :=
  if code ≠ 0 then Except.error "FFMpeg failed" else Except.ok ()

/-- The skip decision made by the first three `.then` stages of `processFile`,
as a function of the output-existence probe, its size, and the two successfully
probed durations: skip iff the output exists with non-zero size and
`isDurationEqual(durationIn, durationOut, 1)` holds. -/
def processFileSkip (outExists : Bool) (outSize : Nat)
    (durIn durOut : Option (List (Option Int))) : Bool :=
  (outExists && outSize != 0) && isDurationEqual durIn durOut 1 0 0

/-- `processFile` end to end, over the external outcomes: existence/size of the
output, the two duration probes (which may reject), and the encoder exit
code with its captured streams.  The final `.catch` converts any rejection into
an `ErrorRecord` appended to the error list and resolves, so the function is
total and always returns the updated list. -/
def processFile (inFile outFile : String) (outExists : Bool) (outSize : Nat)
    (durIn durOut : Except String (Option (List (Option Int))))
    (exitCode : Int) (stdoutText stderrText : String)
    (errs : List ErrorRecord) : List ErrorRecord :=
  let skipStep : Except String Bool :=
    if outExists && outSize != 0 then
      match durIn with
      | Except.error e => Except.error e
      | Except.ok d1 =>
        match durOut with
        | Except.error e => Except.error e
        | Except.ok d2 => Except.ok (isDurationEqual d1 d2 1 0 0)
    else Except.ok false
  match skipStep with
  | Except.error e => errs ++ [⟨e, inFile, outFile⟩]
  | Except.ok true => errs
  | Except.ok false =>
    match ffmpegClose exitCode stdoutText stderrText with
    | Except.error e => errs ++ [⟨e, inFile, outFile⟩]
    | Except.ok _ => errs

/-! ## Publish stage (src/index.js lines 169-212) -/

/-- The terminal event of an `s3client.uploadFile` call. -/
inductive UploadEvent where
  | errored (msg : String)
  | ended
deriving DecidableEq, Repr

/-- `uploadFile` from src/index.js: the `'error'` handler calls `resolve(err)`
and only debug-logs, the `'end'` handler resolves; the promise never rejects
and the error list is never touched. -/
def uploadFile (ev : UploadEvent) (errs : List ErrorRecord) :
    Except String (List ErrorRecord) :=
  match ev with
  | UploadEvent.errored _ => Except.ok errs
  | UploadEvent.ended => Except.ok errs

/-- `fakeUploadFile` from src/index.js: `fs.ensureDir` then `fs.copy`; a copy
failure rejects the returned promise (there is no catch), success resolves. -/
def fakeUploadFile (copyResult : Except String Unit) (errs : List ErrorRecord) :
    Except String (List ErrorRecord) :=
  match copyResult with
  | Except.error e => Except.error e
  | Except.ok _ => Except.ok errs

/-! ## `makeS3Key` (src/index.js lines 199-212) -/

/-- ASCII alphanumeric. -/
def isAlnum (c : Char) : Bool := c.isAlpha || c.isDigit

/-- Collapse maximal runs of non-alphanumeric characters into a single `'_'`;
`prevSep` records whether the current run has already emitted its separator. -/
def collapseRuns (prevSep : Bool) : List Char → List Char
  | [] => []
  | c :: cs =>
    if isAlnum c then c :: collapseRuns false cs
    else if prevSep then collapseRuns true cs
    else '_' :: collapseRuns true cs

/-- Modelled from the spec: the external `slug` npm library, called as
`slug(s, { lower: true, replacement: '_' })`, is not part of this repository;
per the spec it lowercases its input and replaces each run of non-alphanumeric
characters with a single separator. -/
def slugify (s : String) : String :=
  String.mk (collapseRuns false (s.toList.map Char.toLower))

/-- The slugified first-three directory segments of the key: src/index.js
lines 203-204 (`path.dirname(newpath).split('/').splice(0,3)`, slugged and
joined with `/`). -/
def s3KeyDir (outPath file : String) : String :=
  String.intercalate "/"
    (((jsSplit (jsDirname (jsReplaceFirst file (outPath ++ "/") "")) "/").take 3).map
      (fun e => slugify e))

/-- `makeS3Key` from src/index.js, parametrised by the (external) MD5 hex
digest function `md5hex`.  The checksum is computed from the slugified
directory string concatenated with the raw basename, exactly as on line 205. -/
def makeS3Key (md5hex : String → String) (outPath file : String) : String :=
  let newpath := jsReplaceFirst file (outPath ++ "/") ""
  let extName := jsExtname newpath
  let baseName := jsBasenameExt newpath extName
  let dirName := String.intercalate "/"
    (((jsSplit (jsDirname newpath) "/").take 3).map (fun e => slugify e))
  let checksum := md5hex (dirName ++ baseName)
  dirName ++ "/" ++ slugify baseName ++ "-" ++ checksum ++ extName

/-! ## Thumbnail stage (src/index.js lines 214-293)

`getThumbNail` creates a uniquely named scratch directory beside the source
file, then chains four externally effectful sub-steps: ffmpeg screenshot
extraction, a file-type filter over the extracted frames, sequential sharp
resizes, and the gm animated-GIF composition.  Each sub-step's success is an
explicit argument; the model returns whether the scratch directory is still on
disk when the promise settles, together with the settled result.  The only
`fs.removeSync(gifFolder)` in the source sits inside the gm success callback;
no `.catch`/`finally` cleanup exists on any other path. -/

def getThumbNail (extractOk filterOk resizeOk compositeOk : Bool) :
    Bool × Except String Unit :=
  if !extractOk then (true, Except.error "screenshot extraction failed")
  else if !filterOk then (true, Except.error "file type inspection failed")
  else if !resizeOk then (true, Except.error "screenshot resize failed")
  else if !compositeOk then (true, Except.error "preview composition failed")
  else (false, Except.ok ())

/-- The scratch-directory path: `path.join(path.dirname(file), <random hex>)`
(src/index.js line 215), parametrised by the random suffix. -/
def thumbScratchDir (file suffix : String) : String :=
  pjoin (jsDirname file) suffix

/-! ## Discovery walker `parseEntry` (src/index.js lines 31-50)

The filesystem subtree below the configured base path is a finite tree whose
nodes carry single-component entry names (no `/`).  `parseEntry fname` first
rejects any entry whose basename starts with `'.'`, recurses through
directories via `path.join(fname, entry)`, and collects a file iff its
lowercased `path.extname` is in the configured extension allow-list. -/

inductive FSTree where
  | file (name : String)
  | dir (name : String) (children : List FSTree)

/-- `path.basename(fname).substr(0,1) === '.'` for an entry name. -/
def hiddenName (n : String) : Bool :=
  match n.toList with
  | [] => false
  | c :: _ => c = '.'

/-- `config.extensions.indexOf(path.extname(fname).toLowerCase()) !== -1` for
an entry name. -/
def extAllowed (exts : List String) (n : String) : Bool :=
  exts.contains (jsToLower (String.mk (extnameOfBase n.toList)))

mutual
/-- `parseEntry` on one tree node whose parent directory is `p`: the list of
file paths pushed onto `filesToDo`. -/
def parseEntryTree (exts : List String) (p : String) : FSTree → List String
  | FSTree.file n =>
    if hiddenName n then []
    else if extAllowed exts n then [pjoin p n] else []
  | FSTree.dir n cs =>
    if hiddenName n then []
    else parseEntryForest exts (pjoin p n) cs

/-- `parseEntry` mapped over a directory's entries. -/
def parseEntryForest (exts : List String) (p : String) : List FSTree → List String
  | [] => []
  | t :: ts => parseEntryTree exts p t ++ parseEntryForest exts p ts
end

mutual
/-- All files of a tree as component-name lists (root component first),
regardless of hidden markers or extensions. -/
def allFilesTree : FSTree → List (List String)
  | FSTree.file n => [[n]]
  | FSTree.dir n cs => (allFilesForest cs).map (fun l => n :: l)

def allFilesForest : List FSTree → List (List String)
  | [] => []
  | t :: ts => allFilesTree t ++ allFilesForest ts
end

/-- The discovery filter, stated on a file's component path: every component is
non-hidden and the final component's lowercased extension is allowed. -/
def goodComponents (exts : List String) (l : List String) : Bool :=
  l.all (fun n => !hiddenName n) &&
    (match l.getLast? with
     | some f => extAllowed exts f
     | none => false)

/-- Join a component path below the parent directory `p`. -/
def joinAll (p : String) (l : List String) : String := l.foldl pjoin p

/-! ## Orchestrator main pass (src/index.js lines 333-421)

One iteration of the main `Promise.map` over `filesToDo`.  The stages that can
be observed from outside (spawned encoders, uploads/copies, the thumbnail run)
are reified as a `Stage` trace; the chain can be cut short only by an uncaught
rejection (a failing `fs.copy` inside `fakeUploadFile`, or any failing
sub-step of `getThumbNail` — `processFile` and `uploadFile` always resolve).
The boolean in the result is `true` when the per-file promise resolved, `false`
when it rejected. -/

/-- Externally visible pipeline actions, in execution order. -/
inductive Stage where
  | mkOutDir (dir : String)
  | checkBase (p : String)
  | transcode (out : String)
  | upload (out : String)
  | fakeUpload (out : String)
  | thumbnail (out : String)
deriving DecidableEq, Repr

/-- The configuration fields the main pass reads (src/index.js lines 333-421). -/
structure Config where
  encode : Bool
  makeWebm : Bool
  makeMP4 : Bool
  makeThumbs : Bool
  s3upload : Bool
  fakes3upload : Bool
  basePath : String
  outPath : String

/-- Outcomes of the sub-steps that can reject the per-file chain. -/
structure StageOutcomes where
  webmCopyOk : Bool
  mp4CopyOk : Bool
  thumbOk : Bool

/-- `path.dirname(file.replace(config.basePath, config.outPath))`. -/
def outDirOf (cfg : Config) (file : String) : String :=
  jsDirname (jsReplaceFirst file cfg.basePath cfg.outPath)

/-- `path.basename(file, path.extname(file))`. -/
def baseNameOf (file : String) : String :=
  jsBasenameExt file (jsExtname file)

/-- The derived `.webm` output path. -/
def webmOut (cfg : Config) (file : String) : String :=
  pjoin (outDirOf cfg file) (baseNameOf file ++ ".webm")

/-- The derived `.mp4` output path. -/
def mp4Out (cfg : Config) (file : String) : String :=
  pjoin (outDirOf cfg file) (baseNameOf file ++ ".mp4")

/-- One publish step (the two identical blocks at src/index.js lines 354-377
and 397-419): real upload wins over fake when both toggles are set; either mode
first checks existence of the *input* file and skips silently when it is gone;
`uploadFile` always resolves, `fakeUploadFile` rejects iff the copy fails. -/
def publishStep (cfg : Config) (inputExists : Bool) (outfile : String)
    (copyOk : Bool) : List Stage × Bool :=
  if cfg.s3upload then
    if inputExists then ([Stage.upload outfile], true) else ([], true)
  else if cfg.fakes3upload then
    if inputExists then ([Stage.fakeUpload outfile], copyOk) else ([], true)
  else ([], true)

/-- The per-file chain of the main pass: `fs.mkdirp` on the output directory,
the coarse existence check on the extensionless base output name, then the
webm-transcode / publish / mp4-transcode / thumbnail / publish sequence.  The
transcode guards are `!_exists && config.encode && config.makeWebm` (resp.
`makeMP4`); the thumbnail guard is `config.makeThumbs` alone, applied to the
mp4 path. -/
def perFileChain (cfg : Config) (file : String) (baseExists inputExists : Bool)
    (oc : StageOutcomes) : List Stage × Bool :=
  let pathName := outDirOf cfg file
  let baseName := baseNameOf file
  let wOut := webmOut cfg file
  let mOut := mp4Out cfg file
  let s0 := [Stage.mkOutDir pathName, Stage.checkBase (pjoin pathName baseName)]
  let s1 := if !baseExists && cfg.encode && cfg.makeWebm then [Stage.transcode wOut] else []
  let p1 := publishStep cfg inputExists wOut oc.webmCopyOk
  if !p1.2 then (s0 ++ s1 ++ p1.1, false)
  else
    let s3 := if !baseExists && cfg.encode && cfg.makeMP4 then [Stage.transcode mOut] else []
    let s4 := if cfg.makeThumbs then [Stage.thumbnail mOut] else []
    let ok4 := !cfg.makeThumbs || oc.thumbOk
    if !ok4 then (s0 ++ s1 ++ p1.1 ++ s3 ++ s4, false)
    else
      let p2 := publishStep cfg inputExists mOut oc.mp4CopyOk
      (s0 ++ s1 ++ p1.1 ++ s3 ++ s4 ++ p2.1, p2.2)

/-- Is a stage a transcode? -/
def isTranscodeStage : Stage → Bool
  | Stage.transcode _ => true
  | _ => false

/-- Is a stage a publish (real or local-mirror)? -/
def isPublishStage : Stage → Bool
  | Stage.upload _ => true
  | Stage.fakeUpload _ => true
  | _ => false

/-- The publish stage the active backend would run for a given output. -/
def pubStage (cfg : Config) (out : String) : Stage :=
  if cfg.s3upload then Stage.upload out else Stage.fakeUpload out

/-- A thumbnail stage aimed at anything other than the derived mp4 output of
`file` (used to state that no such stage ever runs). -/
def nonMp4Thumbnail (cfg : Config) (file : String) : Stage → Bool
  | Stage.thumbnail o => o != mp4Out cfg file
  | _ => false

/-- A fully enabled configuration with the local-mirror publish backend, used
for concrete evaluations of the pipeline. -/
def cfgAll : Config :=
  { encode := true, makeWebm := true, makeMP4 := true, makeThumbs := true,
    s3upload := false, fakes3upload := true,
    basePath := "/media", outPath := "/out" }

/-- All rejectable sub-steps succeed. -/
def ocAll : StageOutcomes := { webmCopyOk := true, mp4CopyOk := true, thumbOk := true }

/-! # Theorems -/

/-! ## Helper lemmas -/

theorem absLe_zero_iff (x y : Int) : ((x - y).natAbs : Int) ≤ 0 ↔ x = y := by omega

theorem nanAbsLe_some_zero (x y : Int) :
    nanAbsLe (some x) (some y) 0 = decide (x = y) := by
  simp only [nanAbsLe]
  exact decide_eq_decide.mpr (absLe_zero_iff x y)

theorem isDurationEqual_triples (h1 m1 s1 h2 m2 s2 : Int) :
    isDurationEqual (some [some h1, some m1, some s1])
      (some [some h2, some m2, some s2]) 1 0 0
      = (decide (h1 = h2) && decide (m1 = m2) && decide ((s1 - s2).natAbs ≤ 1)) := by
  show (nanAbsLe (some h1) (some h2) 0 && nanAbsLe (some m1) (some m2) 0 &&
    nanAbsLe (some s1) (some s2) 1)
    = (decide (h1 = h2) && decide (m1 = m2) && decide ((s1 - s2).natAbs ≤ 1))
  rw [nanAbsLe_some_zero, nanAbsLe_some_zero]
  simp only [nanAbsLe]
  congr 1
  exact decide_eq_decide.mpr (by omega)

/-! ## C1: the idempotency skip decision -/

/-- Claim C1: the idempotency decision of `processFile` skips re-encoding
exactly as specified — no skip when the output is missing or empty; for two
numeric (hours, minutes, seconds) triples skip iff hours and minutes match
exactly and seconds differ by at most 1; no skip when either duration is the
unparseable sentinel; and whenever the decision is to skip, `processFile`
invokes nothing and leaves the error list unchanged regardless of the encoder
outcome.  Includes the concrete (1,0,0)/(1,0,1) skip and (1,0,0)/(1,0,3)
no-skip cases. -/
theorem processFile_skip_decision :
    (∀ sz d1 d2, processFileSkip false sz d1 d2 = false) ∧
    (∀ d1 d2, processFileSkip true 0 d1 d2 = false) ∧
    (∀ sz d, processFileSkip true sz none d = false) ∧
    (∀ sz d, processFileSkip true sz d none = false) ∧
    (∀ sz h1 m1 s1 h2 m2 s2,
      processFileSkip true (sz+1) (some [some h1, some m1, some s1])
        (some [some h2, some m2, some s2])
        = (decide (h1 = h2) && decide (m1 = m2) && decide ((s1 - s2).natAbs ≤ 1))) ∧
    (∀ inF outF oe osz d1 d2 code so se errs,
      processFileSkip oe osz d1 d2 = true →
      processFile inF outF oe osz (Except.ok d1) (Except.ok d2) code so se errs = errs) ∧
    processFileSkip true 1 (some [some 1, some 0, some 0])
      (some [some 1, some 0, some 1]) = true ∧
    processFileSkip true 1 (some [some 1, some 0, some 0])
      (some [some 1, some 0, some 3]) = false := by
  refine ⟨?_, ?_, ?_, ?_, ?_, ?_, by decide, by decide⟩
  · intro sz d1 d2; simp [processFileSkip]
  · intro d1 d2; simp [processFileSkip]
  · intro sz d; simp [processFileSkip, isDurationEqual]
  · intro sz d; cases d <;> simp [processFileSkip, isDurationEqual]
  · intro sz h1 m1 s1 h2 m2 s2
    simp only [processFileSkip, isDurationEqual_triples]
    simp
  · intro inF outF oe osz d1 d2 code so se errs hskip
    simp only [processFileSkip, Bool.and_eq_true] at hskip
    simp only [processFile, hskip.1, Bool.and_self, hskip.2, if_true]

/-- Witness for C1: the (1,0,0)/(1,0,1) pair skips, and on a skip the error
list is untouched even though the encoder would have failed. -/
theorem processFile_skip_decision_witness :
    processFile "/media/a.mov" "/out/a.webm" true 1
      (Except.ok (some [some 1, some 0, some 0]))
      (Except.ok (some [some 1, some 0, some 1])) 1 "" "" [] = [] :=
  processFile_skip_decision.2.2.2.2.2.1 "/media/a.mov" "/out/a.webm" true 1
    (some [some 1, some 0, some 0]) (some [some 1, some 0, some 1]) 1 "" "" []
    (by decide)

/-! ## C2: transcode failure handling in `processFile` -/

/-- Claim C2 counterexample: a non-zero encoder exit produces the fixed error
`FFMpeg failed` whose message does not contain the captured stderr text, so the
error does not carry the standard-error text. -/
theorem ffmpegClose_message_fixed :
    ffmpegClose 1 "" "Error while decoding stream #0:0" = Except.error "FFMpeg failed" ∧
    hasSubstr ("Error while decoding stream #0:0".toList) ("FFMpeg failed".toList) = false := by
  exact ⟨rfl, by decide⟩

/-- Claim C2 (amended): a non-zero encoder exit code rejects the transcode
stage with the fixed message `FFMpeg failed` (the captured stderr is only
debug-logged, not attached to the error); every stage failure — probe
rejection or encoder failure — is converted into an `ErrorRecord` carrying the
underlying error message, the input path and the attempted output path,
appended to the error list; and `processFile` always resolves: its result is
the incoming list, possibly extended by exactly one such record. -/
theorem processFile_error_isolation :
    (∀ code so se, code ≠ 0 → ffmpegClose code so se = Except.error "FFMpeg failed") ∧
    (∀ inF outF oe osz dIn dOut code so se errs,
      processFile inF outF oe osz dIn dOut code so se errs = errs ∨
      ∃ e, processFile inF outF oe osz dIn dOut code so se errs
            = errs ++ [⟨e, inF, outF⟩]) ∧
    (∀ inF outF oe osz d1 d2 code so se errs, code ≠ 0 →
      processFileSkip oe osz d1 d2 = false →
      processFile inF outF oe osz (Except.ok d1) (Except.ok d2) code so se errs
        = errs ++ [⟨"FFMpeg failed", inF, outF⟩]) := by
  refine ⟨?_, ?_, ?_⟩
  · intro code so se h; simp [ffmpegClose, h]
  · intro inF outF oe osz dIn dOut code so se errs
    unfold processFile
    dsimp only
    split
    · exact Or.inr ⟨_, rfl⟩
    · exact Or.inl rfl
    · split
      · exact Or.inr ⟨_, rfl⟩
      · exact Or.inl rfl
  · intro inF outF oe osz d1 d2 code so se errs hcode hskip
    have hff : ffmpegClose code so se = Except.error "FFMpeg failed" := by
      simp [ffmpegClose, hcode]
    simp only [processFileSkip, Bool.and_eq_false_imp] at hskip
    unfold processFile
    cases h : oe && osz != 0
    · simp [h, hff]
    · simp [h, hskip h, hff]

/-- Witness for C2: a concrete failed transcode appends exactly one record. -/
theorem processFile_error_isolation_witness :
    processFile "/media/a.mov" "/out/a.mp4" true 5 (Except.ok none) (Except.ok none)
      1 "" "boom" [] = [⟨"FFMpeg failed", "/media/a.mov", "/out/a.mp4"⟩] :=
  processFile_error_isolation.2.2 "/media/a.mov" "/out/a.mp4" true 5 none none
    1 "" "boom" [] (by decide) (by decide)

/-! ## C4: thumbnail scratch-directory lifecycle -/

/-- Claim C4 counterexample: when the animated-preview composition fails, the
stage's promise rejects with the scratch directory still on disk — the only
`fs.removeSync(gifFolder)` call sits inside the gm success callback. -/
theorem getThumbNail_scratch_left_on_failure :
    getThumbNail true true true false
      = (true, Except.error "preview composition failed") := rfl

/-- Claim C4 (amended): the scratch directory is deleted only on the full
success path — it is gone exactly when frame extraction, filtering, resizing
and composition all succeed, in which case the stage resolves; on any sub-step
failure the stage rejects and the scratch directory remains on disk. -/
theorem getThumbNail_cleanup_success_only :
    (∀ e f r c, (getThumbNail e f r c).1 = !(e && f && r && c)) ∧
    (∀ e f r c, (getThumbNail e f r c).2 = Except.ok () ↔ (e && f && r && c) = true) := by
  constructor
  · intro e f r c
    cases e <;> cases f <;> cases r <;> cases c <;> rfl
  · intro e f r c
    cases e <;> cases f <;> cases r <;> cases c <;> simp [getThumbNail]

/-! ## C5: publish failure handling -/

/-- Claim C5 counterexample: a failed remote upload resolves with the error
list untouched (nothing is recorded), and a failed local-mirror copy rejects
the promise (nothing is caught). -/
theorem publish_failure_not_recorded :
    uploadFile (UploadEvent.errored "connect ETIMEDOUT") [] = Except.ok [] ∧
    fakeUploadFile (Except.error "ENOSPC") []
      = Except.error "ENOSPC" := ⟨rfl, rfl⟩

/-- Claim C5 (amended): a remote-upload failure is swallowed — `uploadFile`
always resolves without appending any `ErrorRecord`; a local-mirror copy
failure is not caught anywhere — `fakeUploadFile` rejects, and in the main
pass that rejection aborts the per-file chain (the chain's resolved flag is
false), again without appending any record. -/
theorem publish_failure_handling :
    (∀ ev errs, uploadFile ev errs = Except.ok errs) ∧
    (∀ e errs, fakeUploadFile (Except.error e) errs = Except.error e) ∧
    (∀ errs, fakeUploadFile (Except.ok ()) errs = Except.ok errs) ∧
    (∀ file, (perFileChain cfgAll file false true
        { webmCopyOk := false, mp4CopyOk := true, thumbOk := true }).2 = false) := by
  refine ⟨?_, fun e errs => rfl, fun errs => rfl, ?_⟩
  · intro ev errs; cases ev <;> rfl
  · intro file
    simp [perFileChain, publishStep, cfgAll]

/-! ## C3: per-file pass structure -/

/-- Claim C3 counterexample: with every stage enabled and the extensionless
base output name already existing, the per-file pass is *not* short-circuited:
after the directory setup and the base-name check, the webm publish, the
thumbnail run on the mp4 path, and the mp4 publish all still execute — only
the two transcodes are skipped. -/
theorem perFileChain_no_short_circuit :
    (perFileChain cfgAll "/media/videos/clip.mov" true true ocAll).1
      = [Stage.mkOutDir "/out/videos", Stage.checkBase "/out/videos/clip",
         Stage.fakeUpload "/out/videos/clip.webm",
         Stage.thumbnail "/out/videos/clip.mp4",
         Stage.fakeUpload "/out/videos/clip.mp4"] := by decide

/-- Claim C3 (amended): the per-file pass first ensures the output directory,
then checks the extensionless base output name; when that name does not exist
the stages run in the fixed order webm transcode, publish, mp4 transcode,
thumbnail, publish; when it exists only the two transcodes are skipped while
publish and thumbnail still run; and in every configuration the thumbnail
stage is applied only to the derived mp4 output path, never the webm path. -/
theorem perFileChain_stage_order :
    (∀ file, (perFileChain cfgAll file false true ocAll).1
      = [Stage.mkOutDir (outDirOf cfgAll file),
         Stage.checkBase (pjoin (outDirOf cfgAll file) (baseNameOf file)),
         Stage.transcode (webmOut cfgAll file),
         Stage.fakeUpload (webmOut cfgAll file),
         Stage.transcode (mp4Out cfgAll file),
         Stage.thumbnail (mp4Out cfgAll file),
         Stage.fakeUpload (mp4Out cfgAll file)]) ∧
    (∀ cfg file inputExists oc,
      (perFileChain cfg file true inputExists oc).1.filter isTranscodeStage = []) ∧
    (∀ cfg file b i oc,
      (perFileChain cfg file b i oc).1.filter (nonMp4Thumbnail cfg file) = []) ∧
    (∀ file, (perFileChain cfgAll file true true ocAll).1
      = [Stage.mkOutDir (outDirOf cfgAll file),
         Stage.checkBase (pjoin (outDirOf cfgAll file) (baseNameOf file)),
         Stage.fakeUpload (webmOut cfgAll file),
         Stage.thumbnail (mp4Out cfgAll file),
         Stage.fakeUpload (mp4Out cfgAll file)]) := by
  refine ⟨?_, ?_, ?_, ?_⟩
  · intro file
    simp [perFileChain, publishStep, cfgAll, ocAll]
  · intro cfg file inputExists oc
    obtain ⟨e, w, m, th, s3u, f3u, bp, op⟩ := cfg
    obtain ⟨wc, mc, tc⟩ := oc
    cases s3u <;> cases f3u <;> cases inputExists <;> cases th <;>
      cases tc <;> cases wc <;>
      simp [perFileChain, publishStep, isTranscodeStage]
  · intro cfg file b i oc
    have hpub : ∀ ie o k,
        (publishStep cfg ie o k).1.filter (nonMp4Thumbnail cfg file) = [] := by
      intro ie o k
      cases hs : cfg.s3upload <;> cases hf : cfg.fakes3upload <;> cases ie <;>
        simp [publishStep, hs, hf, nonMp4Thumbnail]
    have htr : ∀ (c : Bool) x,
        (if c then [Stage.transcode x] else []).filter (nonMp4Thumbnail cfg file) = [] := by
      intro c x; cases c <;> simp [nonMp4Thumbnail]
    have hth : ∀ (c : Bool),
        (if c then [Stage.thumbnail (mp4Out cfg file)] else []).filter
          (nonMp4Thumbnail cfg file) = [] := by
      intro c; cases c <;> simp [nonMp4Thumbnail]
    have hs0 : ∀ x y, ([Stage.mkOutDir x, Stage.checkBase y]).filter
        (nonMp4Thumbnail cfg file) = [] := by
      intro x y; simp [nonMp4Thumbnail]
    simp only [perFileChain]
    split
    · simp only [List.filter_append, hpub, htr, hth, hs0, List.append_nil, List.nil_append]
    · split <;>
        simp only [List.filter_append, hpub, htr, hth, hs0, List.append_nil, List.nil_append]
  · intro file
    simp [perFileChain, publishStep, cfgAll, ocAll]

/-! ## C10: publish is attempted regardless of encoding state -/

/-- Claim C10: when a publish backend is enabled, the publish step for each
format is attempted with the derived `.webm` / `.mp4` output path no matter
whether that format's encoding is disabled, skipped by the coarse base-name
check, or failed (transcode failures are caught inside `processFile`, so they
never cut the chain) — because before publishing, only the existence of the
*input* file is ever checked: with the input file absent no publish stage runs,
and the existence of the output file being pushed is consulted nowhere.  The
mp4 publish additionally requires that no earlier uncaught rejection (webm
copy failure or thumbnail failure) aborted the chain. -/
theorem publish_attempted_regardless :
    ∀ cfg file baseExists oc,
      (cfg.s3upload || cfg.fakes3upload) = true →
      (pubStage cfg (webmOut cfg file) ∈ (perFileChain cfg file baseExists true oc).1) ∧
      ((cfg.s3upload = true ∨ oc.webmCopyOk = true) →
       (cfg.makeThumbs = false ∨ oc.thumbOk = true) →
       pubStage cfg (mp4Out cfg file) ∈ (perFileChain cfg file baseExists true oc).1) ∧
      ((perFileChain cfg file baseExists false oc).1.filter isPublishStage = []) := by
  intro cfg file baseExists oc hup
  obtain ⟨e, w, m, th, s3u, f3u, bp, op⟩ := cfg
  obtain ⟨wc, mc, tc⟩ := oc
  simp only [Bool.or_eq_true] at hup
  refine ⟨?_, ?_, ?_⟩
  · cases s3u <;> cases f3u <;> cases baseExists <;> cases th <;> cases tc <;> cases wc <;>
      simp_all [perFileChain, publishStep, pubStage]
  · intro h1 h2
    cases s3u <;> cases f3u <;> cases baseExists <;> cases th <;> cases tc <;> cases wc <;>
      simp_all [perFileChain, publishStep, pubStage]
  · cases s3u <;> cases f3u <;> cases baseExists <;> cases th <;> cases tc <;> cases wc <;>
      simp_all [perFileChain, publishStep, isPublishStage]

/-- Witness for C10: with the base name already existing (so no transcode ran)
both publish stages are still attempted in the concrete all-enabled run. -/
theorem publish_attempted_witness :
    pubStage cfgAll (webmOut cfgAll "/media/videos/clip.mov")
      ∈ (perFileChain cfgAll "/media/videos/clip.mov" true true ocAll).1 ∧
    pubStage cfgAll (mp4Out cfgAll "/media/videos/clip.mov")
      ∈ (perFileChain cfgAll "/media/videos/clip.mov" true true ocAll).1 := by
  have h := publish_attempted_regardless cfgAll "/media/videos/clip.mov" true ocAll (by decide)
  exact ⟨h.1, h.2.1 (Or.inr rfl) (Or.inr rfl)⟩

/-! ## C6: object-key derivation -/

/-- Claim C6: `makeS3Key` is deterministic — two computations on the same
output path (with the same digest function) yield the identical key; the key
decomposes into the slugified first-three directory segments of the path
relative to the output root, the slugified basename, a fingerprint that is a
function of those inputs only, and the original extension; changing only the
basename (same directory after stripping the root) leaves the slugified
directory segments unchanged.  A concrete evaluation shows the lowercase /
separator-collapsing shape of the key. -/
theorem makeS3Key_deterministic :
    (∀ md5hex op f k1 k2, k1 = makeS3Key md5hex op f → k2 = makeS3Key md5hex op f →
      k1 = k2) ∧
    (∀ md5hex op f,
      makeS3Key md5hex op f =
        s3KeyDir op f ++ "/" ++
        slugify (jsBasenameExt (jsReplaceFirst f (op ++ "/") "")
          (jsExtname (jsReplaceFirst f (op ++ "/") ""))) ++ "-" ++
        md5hex (s3KeyDir op f ++
          jsBasenameExt (jsReplaceFirst f (op ++ "/") "")
            (jsExtname (jsReplaceFirst f (op ++ "/") ""))) ++
        jsExtname (jsReplaceFirst f (op ++ "/") "")) ∧
    (∀ op f1 f2,
      jsDirname (jsReplaceFirst f1 (op ++ "/") "")
        = jsDirname (jsReplaceFirst f2 (op ++ "/") "") →
      s3KeyDir op f1 = s3KeyDir op f2) ∧
    makeS3Key (fun _ => "f1e2") "/out" "/out/Artist Name/2019/Dec/Clip One.mp4"
      = "artist_name/2019/dec/clip_one-f1e2.mp4" := by
  refine ⟨?_, ?_, ?_, by decide⟩
  · intro md5hex op f k1 k2 h1 h2
    rw [h1, h2]
  · intro md5hex op f
    rfl
  · intro op f1 f2 h
    simp only [s3KeyDir, h]

/-- Witness for C6: a concrete pair of paths differing only in the basename
gets the same slugified directory prefix, and a key equals itself. -/
theorem makeS3Key_deterministic_witness :
    s3KeyDir "/out" "/out/a/b/clip one.mp4" = s3KeyDir "/out" "/out/a/b/other.webm" ∧
    makeS3Key (fun s => s) "/out" "/out/a/b/c.mp4"
      = makeS3Key (fun s => s) "/out" "/out/a/b/c.mp4" := by
  exact ⟨makeS3Key_deterministic.2.2.1 "/out" "/out/a/b/clip one.mp4"
      "/out/a/b/other.webm" (by decide),
    makeS3Key_deterministic.1 (fun s => s) "/out" "/out/a/b/c.mp4" _ _ rfl rfl⟩

/-! ## C7: duration probing -/

/-- Claim C7 counterexample: a stderr text whose `Duration:` annotation sits on
the final line (no line follows it) contains the annotation yet parses to the
unparseable sentinel, because the source demands `lines.length >= 2` after the
shifting loop. -/
theorem getDuration_last_line_unparsed :
    hasSubstr durationPat "  Duration: 00:01:02.50, start: 0.000000".toList = true ∧
    getDurationParse "  Duration: 00:01:02.50, start: 0.000000" = none := by
  exact ⟨by decide, by decide⟩

/-- Claim C7 (amended): `getDuration` scans the prober's stderr for the first
line containing a `Duration:` annotation; when such a line exists *and at
least one further line follows it* the numeric (hour, minute, second) triple
truncated to whole seconds is resolved; when no such line exists — or the
annotation line is the last line of the split — the unparseable sentinel
`undefined` is resolved; and a non-zero prober exit code rejects the promise
with `FFProbe failed`, while exit code 0 resolves with the parse. -/
theorem getDuration_parse_spec :
    (∀ lines, (∀ l ∈ lines, hasSubstr durationPat l = false) →
      getDurationLines lines = none) ∧
    (∀ pre l post, (∀ q ∈ pre, hasSubstr durationPat q = false) →
      hasSubstr durationPat l = true → post ≠ [] →
      getDurationLines (pre ++ l :: post) = lineDuration l) ∧
    (∀ pre l, (∀ q ∈ pre, hasSubstr durationPat q = false) →
      hasSubstr durationPat l = true →
      getDurationLines (pre ++ [l]) = none) ∧
    (getDurationParse "  Duration: 00:01:02.50, start: 0.000000, bitrate: 1 kb/s\n"
      = some [some 0, some 1, some 2]) ∧
    (∀ code se, code ≠ 0 → getDurationClose code se = Except.error "FFProbe failed") ∧
    (∀ se, getDurationClose 0 se = Except.ok (getDurationParse se)) := by
  have hdrop : ∀ (pre rest : List (List Char)),
      (∀ q ∈ pre, hasSubstr durationPat q = false) →
      (pre ++ rest).dropWhile (fun l => !hasSubstr durationPat l)
        = rest.dropWhile (fun l => !hasSubstr durationPat l) := by
    intro pre rest hpre
    exact List.dropWhile_append_of_pos (by
      intro a ha
      simp [hpre a ha])
  refine ⟨?_, ?_, ?_, by decide, ?_, ?_⟩
  · intro lines hall
    have h : lines.dropWhile (fun l => !hasSubstr durationPat l) = [] := by
      rw [List.dropWhile_eq_nil_iff]
      intro x hx
      simp [hall x hx]
    simp [getDurationLines, h]
  · intro pre l post hpre hl hpost
    have h : (pre ++ l :: post).dropWhile (fun l => !hasSubstr durationPat l)
        = l :: post := by
      rw [hdrop pre (l :: post) hpre]
      rw [List.dropWhile_cons_of_neg (by simp [hl])]
    cases post with
    | nil => exact absurd rfl hpost
    | cons p ps => simp [getDurationLines, h]
  · intro pre l hpre hl
    have h : (pre ++ [l]).dropWhile (fun l => !hasSubstr durationPat l) = [l] := by
      rw [hdrop pre [l] hpre]
      rw [List.dropWhile_cons_of_neg (by simp [hl])]
    simp [getDurationLines, h]
  · intro code se h
    simp [getDurationClose, h]
  · intro se
    simp [getDurationClose]

/-- Witness for C7: the general parse law evaluated on a concrete three-line
stderr capture. -/
theorem getDuration_parse_witness :
    getDurationLines ["Input #0, mov,".toList,
        "  Duration: 00:01:02.50, start: 0".toList, "".toList]
      = lineDuration "  Duration: 00:01:02.50, start: 0".toList := by
  exact getDuration_parse_spec.2.1 ["Input #0, mov,".toList]
    "  Duration: 00:01:02.50, start: 0".toList ["".toList]
    (by decide) (by decide) (by decide)

/-! ## C8: path sanitisation -/

/-- Claim C8 counterexample: double quotes, dollar signs and parentheses pass
through `sanitizePath` untouched, so not all shell-metacharacters are escaped. -/
theorem sanitizePath_quote_unescaped :
    sanitizePath "a\"b$(x);c" = "a\"b$(x);c" := by decide

theorem wsEscape_amp (c : Char) : (wsEscape c).flatMap ampEscape = escapeChar c := by
  by_cases hws : jsWhitespaceChar c = true
  · have h1 : ampEscape '\\' = ['\\'] := by decide
    have h2 : ampEscape ' ' = [' '] := by decide
    simp [wsEscape, escapeChar, hws, h1, h2]
  · by_cases hamp : c = '&'
    · subst hamp
      have h0 : jsWhitespaceChar '&' = false := by decide
      simp [wsEscape, escapeChar, h0, ampEscape]
    · simp [wsEscape, escapeChar, hws, ampEscape, hamp]

theorem sanitizeList_eq (s : List Char) : sanitizeList s = s.flatMap escapeChar := by
  induction s with
  | nil => rfl
  | cons c cs ih =>
    show ((c :: cs).flatMap wsEscape).flatMap ampEscape = _
    rw [List.flatMap_cons, List.flatMap_append, wsEscape_amp, List.flatMap_cons]
    exact congrArg (escapeChar c ++ ·) ih

/-- Claim C8 (amended): `sanitizePath` escapes exactly whitespace and
ampersands — in its output every whitespace character and every ampersand is
immediately preceded by a backslash, and an input containing neither is
returned unchanged (in particular quotes and other metacharacters are never
escaped); concretely, `a b&c` becomes `a\ b\&c`. -/
theorem sanitizePath_escapes_ws_amp :
    (∀ s prev, escapedFrom prev (sanitizeList s) = true) ∧
    (∀ s, s.all (fun c => !escapeTarget c) = true → sanitizeList s = s) ∧
    sanitizePath "a b&c" = "a\\ b\\&c" := by
  refine ⟨?_, ?_, by decide⟩
  · intro s
    rw [sanitizeList_eq]
    induction s with
    | nil => intro prev; rfl
    | cons c cs ih =>
      intro prev
      rw [List.flatMap_cons]
      by_cases hws : jsWhitespaceChar c = true
      · have hc : escapeChar c = ['\\', ' '] := by simp [escapeChar, hws]
        have t1 : escapeTarget '\\' = false := by decide
        rw [hc]
        simp [escapedFrom, t1, ih ' ']
      · by_cases hamp : c = '&'
        · subst hamp
          have hc : escapeChar '&' = ['\\', '&'] := by
            simp [escapeChar, hws]
          have t1 : escapeTarget '\\' = false := by decide
          rw [hc]
          simp [escapedFrom, t1, ih '&']
        · have hc : escapeChar c = [c] := by simp [escapeChar, hws, hamp]
          have t1 : escapeTarget c = false := by simp [escapeTarget, hws, hamp]
          rw [hc]
          simp [escapedFrom, t1, ih c]
  · intro s
    induction s with
    | nil => intro _; rfl
    | cons c cs ih =>
      intro hs
      simp only [List.all_cons, Bool.and_eq_true] at hs
      have ht := hs.1
      simp only [escapeTarget, Bool.not_eq_true', Bool.or_eq_false_iff] at ht
      have hamp : ¬c = '&' := by
        have := ht.2
        simpa using this
      have hc : escapeChar c = [c] := by
        simp [escapeChar, ht.1, hamp]
      rw [sanitizeList_eq, List.flatMap_cons, hc, ← sanitizeList_eq, ih hs.2]
      rfl

/-- Witness for C8: a clean path is unchanged by the sanitizer. -/
theorem sanitizePath_escapes_ws_amp_witness :
    sanitizeList "abc".toList = "abc".toList :=
  sanitizePath_escapes_ws_amp.2.1 "abc".toList (by decide)

/-! ## C9: discovery walker -/

theorem allFilesTree_ne_nil (t : FSTree) (l : List String)
    (hl : l ∈ allFilesTree t) : l ≠ [] := by
  cases t with
  | file n =>
    simp only [allFilesTree, List.mem_singleton] at hl
    simp [hl]
  | dir n cs =>
    simp only [allFilesTree, List.mem_map] at hl
    obtain ⟨a, _, rfl⟩ := hl
    simp

theorem allFilesForest_ne_nil :
    ∀ (ts : List FSTree) (l : List String), l ∈ allFilesForest ts → l ≠ []
  | [], l, hl => by simp [allFilesForest] at hl
  | t :: ts, l, hl => by
    simp only [allFilesForest, List.mem_append] at hl
    cases hl with
    | inl h => exact allFilesTree_ne_nil t l h
    | inr h => exact allFilesForest_ne_nil ts l h

theorem goodComponents_cons (exts : List String) (n : String) (l : List String)
    (hn : hiddenName n = false) (hl : l ≠ []) :
    goodComponents exts (n :: l) = goodComponents exts l := by
  cases l with
  | nil => exact absurd rfl hl
  | cons b bs =>
    simp [goodComponents, hn, List.getLast?_cons_cons, Bool.and_assoc]

mutual
theorem parseEntryTree_eq : ∀ (exts : List String) (p : String) (t : FSTree),
    parseEntryTree exts p t
      = ((allFilesTree t).filter (goodComponents exts)).map (joinAll p)
  | exts, p, FSTree.file n => by
    by_cases hn : hiddenName n = true
    · have hg : goodComponents exts [n] = false := by
        simp [goodComponents, hn]
      simp [parseEntryTree, allFilesTree, hn, hg]
    · rw [Bool.not_eq_true] at hn
      by_cases he : extAllowed exts n = true
      · have hg : goodComponents exts [n] = true := by
          simp [goodComponents, hn, he]
        simp [parseEntryTree, allFilesTree, hn, he, hg, joinAll]
      · rw [Bool.not_eq_true] at he
        have hg : goodComponents exts [n] = false := by
          simp [goodComponents, hn, he]
        simp [parseEntryTree, allFilesTree, hn, he, hg]
  | exts, p, FSTree.dir n cs => by
    by_cases hn : hiddenName n = true
    · have hf : (allFilesForest cs).filter
          ((goodComponents exts) ∘ (fun l => n :: l)) = [] := by
        rw [List.filter_eq_nil_iff]
        intro a _
        simp [Function.comp, goodComponents, hn]
      simp only [parseEntryTree, allFilesTree, hn, if_true]
      rw [List.filter_map, hf]
      rfl
    · rw [Bool.not_eq_true] at hn
      have hcong : ∀ a ∈ allFilesForest cs,
          ((goodComponents exts) ∘ (fun l => n :: l)) a = goodComponents exts a := by
        intro a ha
        rw [Function.comp_apply]
        exact goodComponents_cons exts n a hn (allFilesForest_ne_nil cs a ha)
      simp only [parseEntryTree, allFilesTree, hn, Bool.false_eq_true, if_false]
      rw [parseEntryForest_eq exts (pjoin p n) cs]
      rw [List.filter_map, List.map_map, List.filter_congr hcong]
      exact (List.map_congr_left (fun a _ => rfl)).symm

theorem parseEntryForest_eq : ∀ (exts : List String) (p : String) (ts : List FSTree),
    parseEntryForest exts p ts
      = ((allFilesForest ts).filter (goodComponents exts)).map (joinAll p)
  | exts, p, [] => by simp [parseEntryForest, allFilesForest]
  | exts, p, t :: ts => by
    simp only [parseEntryForest, allFilesForest]
    rw [parseEntryTree_eq exts p t, parseEntryForest_eq exts p ts,
      List.filter_append, List.map_append]
end

/-- Claim C9: discovery produces exactly the files reachable through
non-hidden entries whose lowercased extension is in the allow-list — a path is
in `parseEntry`'s output iff it is the join of a component path of the tree,
every component (directory or file, at any depth) is non-hidden, and the final
component's lowercased extension is allowed. -/
theorem parseEntry_discovers_exactly :
    ∀ (exts : List String) (p : String) (t : FSTree) (s : String),
      s ∈ parseEntryTree exts p t ↔
        ∃ comps, comps ∈ allFilesTree t ∧ goodComponents exts comps = true ∧
          s = joinAll p comps := by
  intro exts p t s
  rw [parseEntryTree_eq]
  constructor
  · intro h
    obtain ⟨a, ha, hj⟩ := List.mem_map.mp h
    obtain ⟨hmem, hgood⟩ := List.mem_filter.mp ha
    exact ⟨a, hmem, hgood, hj.symm⟩
  · rintro ⟨a, hmem, hgood, rfl⟩
    exact List.mem_map.mpr ⟨a, List.mem_filter.mpr ⟨hmem, hgood⟩, rfl⟩
